import Mathlib

/-!
Verification of the `compgeo` 2-D computational-geometry kernel.

The Rust sources store coordinates as `f32`.  Every `f32` value is a rational
number, so the shallow embedding models scalars as `ℚ` and performs the
arithmetic of the source exactly; functions of the source that take a square
root (`norm`, `length`, `distance_to_point` of `Ray`/`Segment`) return a real
number obtained with `Real.sqrt` applied to the exact rational square.
`f32::EPSILON` is `2⁻²³`, embedded as the rational `epsilon` below.

A second copy of the vector algebra with real coefficients (namespace `R`)
embeds the conversion chain `Segment → Ray → Segment`
(`From<Segment> for Ray` and `Ray::as_segment`), because `normalize` divides
by a norm and so leaves the rational grid.
-/

namespace Compgeo

/-- 2-D vector / point with exact rational coordinates (embeds both
`nalgebra::Point2<f32>` and `nalgebra::Vector2<f32>`, which carry the same
data). -/
structure Vec2 where
  x : ℚ
  y : ℚ

deriving instance DecidableEq for Vec2

instance : Add Vec2 := ⟨fun a b => ⟨a.x + b.x, a.y + b.y⟩⟩

instance : Sub Vec2 := ⟨fun a b => ⟨a.x - b.x, a.y - b.y⟩⟩

instance : Neg Vec2 := ⟨fun a => ⟨-a.x, -a.y⟩⟩

instance : SMul ℚ Vec2 := ⟨fun c v => ⟨c * v.x, c * v.y⟩⟩

instance : Zero Vec2 := ⟨⟨0, 0⟩⟩

/-- Dot product of 2-D vectors (`nalgebra`'s `dot`). -/
def Vec2.dot (a b : Vec2) : ℚ :=
  a.x * b.x + a.y * b.y

/-- Squared Euclidean norm (`nalgebra`'s `norm_squared`). -/
def Vec2.normSq (v : Vec2) : ℚ :=
  v.dot v

/-- Euclidean norm (`nalgebra`'s `norm`): the square root of `norm_squared`,
taken in `ℝ`. -/
noncomputable def Vec2.norm (v : Vec2) : ℝ :=
  Real.sqrt (v.normSq : ℝ)

/-- `operations::perp_vec2d`: rotate a vector 90° counterclockwise,
`perp(v) = (-v.y, v.x)`. -/
def perp_vec2d (v : Vec2) : Vec2 :=
  ⟨-v.y, v.x⟩

/-- `operations::perp_unit2d`: same rotation, specialized to unit vectors in
the source (`Unit::new_unchecked`); the computation is identical. -/
def perp_unit2d (v : Vec2) : Vec2 :=
  ⟨-v.y, v.x⟩

/-- `line::Segment`: a bounded line segment given by its two endpoints. -/
structure Segment where
  start : Vec2
  «end» : Vec2

deriving instance DecidableEq for Segment

/-- `Segment::new`. -/
def Segment.new (start e : Vec2) : Segment :=
  ⟨start, e⟩

/-- `Segment::closest_point`: the closest point on the segment to an
arbitrary point, translated line by line from `segment.rs`. -/
def Segment.closest_point (s : Segment) (point : Vec2) : Vec2 :=
  let direction := s.«end» - s.start
  let w := point - s.start
  let c1 := w.dot direction
  if c1 ≤ 0 then
    s.start
  else
    let c2 := direction.normSq
    if c2 ≤ c1 then
      s.«end»
    else
      let b := c1 / c2
      s.start + b • direction

/-- `Segment::length`: `(start - end).norm()`. -/
noncomputable def Segment.length (s : Segment) : ℝ :=
  (s.start - s.«end»).norm

/-- `Segment::length_squared`: `(start - end).norm_squared()`. -/
def Segment.length_squared (s : Segment) : ℚ :=
  (s.start - s.«end»).normSq

/-- `Segment`'s `DistanceToPoint::distance_to_point`:
`(point - closest_point(point)).norm()`. -/
noncomputable def Segment.distance_to_point (s : Segment) (point : Vec2) : ℝ :=
  (point - s.closest_point point).norm

/-- `Segment`'s `DistanceToPoint::distance_to_point_squared`. -/
def Segment.distance_to_point_squared (s : Segment) (point : Vec2) : ℚ :=
  (point - s.closest_point point).normSq

/-- `line::Ray`: a half-line with an origin and a direction.  The source
wraps the direction in `Unit<...>` as a caller contract; the embedding keeps
it as a plain vector and states unit length as a hypothesis where a claim
assumes it. -/
structure Ray where
  origin : Vec2
  direction : Vec2

/-- `Ray::new`. -/
def Ray.new (origin direction : Vec2) : Ray :=
  ⟨origin, direction⟩

/-- `Ray::as_segment`: the segment from `origin` to
`origin + direction.scale(length)` (rational-length variant; the real-valued
round trip lives in namespace `R`). -/
def Ray.as_segment (r : Ray) (length : ℚ) : Segment :=
  Segment.new r.origin (r.origin + length • r.direction)

/-- `Ray`'s `DistanceToPoint::distance_to_point`, translated from `ray.rs`:
signed, negative when the projection parameter is not positive. -/
noncomputable def Ray.distance_to_point (r : Ray) (point : Vec2) : ℝ :=
  let w := point - r.origin
  let projection := w.dot r.direction
  if projection ≤ 0 then
    -w.norm
  else
    (w - projection • r.direction).norm

/-- `Ray`'s `DistanceToPoint::distance_to_point_squared`, translated from
`ray.rs`: same branching with squared norms, the behind branch negated. -/
def Ray.distance_to_point_squared (r : Ray) (point : Vec2) : ℚ :=
  let w := point - r.origin
  let projection := w.dot r.direction
  if projection ≤ 0 then
    -w.normSq
  else
    (w - projection • r.direction).normSq

/-- `line::Line`: infinite line in implicit form `normal.x*x + normal.y*y + c
= 0`; the unit-normal invariant is a caller contract in the source. -/
structure Line where
  normal : Vec2
  c : ℚ

/-- `Line::new`. -/
def Line.new (normal : Vec2) (c : ℚ) : Line :=
  ⟨normal, c⟩

/-- `Line`'s `DistanceToPoint::distance_to_point`:
`normal.x * point.x + normal.y * point.y + c`. -/
def Line.distance_to_point (l : Line) (point : Vec2) : ℚ :=
  l.normal.x * point.x + l.normal.y * point.y + l.c

/-- `Line`'s `DistanceToPoint::distance_to_point_squared`:
`distance * distance`. -/
def Line.distance_to_point_squared (l : Line) (point : Vec2) : ℚ :=
  let distance := l.distance_to_point point
  distance * distance

/-- `From<Ray> for Line`: normal is the perpendicular of the ray direction,
offset chosen so the ray origin lies on the line. -/
def Line.from_ray (r : Ray) : Line :=
  let normal := perp_unit2d r.direction
  let c := -((Line.new normal 0).distance_to_point r.origin)
  Line.new normal c

/-- `f32::EPSILON = 2⁻²³`, the machine epsilon used by
`intersect_segments`. -/
def epsilon : ℚ :=
  1 / 2 ^ 23

/-- `intersection::SegmentIntersection`: the tagged intersection outcome. -/
inductive SegmentIntersection where
  | None : SegmentIntersection
  | Point : Vec2 → SegmentIntersection
  | Overlap : Segment → SegmentIntersection

deriving instance DecidableEq for SegmentIntersection

/-- The branch condition at `intersection.rs:25`, exactly as the source
writes it: the degenerate/parallel branch is entered when the signed scalar
`dir_a · perp(dir_b)` is at most `f32::EPSILON` (no absolute value is
taken). -/
def classifies_parallel (a b : Segment) : Prop :=
  (a.«end» - a.start).dot (perp_vec2d (b.«end» - b.start)) ≤ epsilon

instance (a b : Segment) : Decidable (classifies_parallel a b) := by
  unfold classifies_parallel
  infer_instance

/-- `intersection::intersect_segments`, translated from `intersection.rs`.
The early-`return` chain of the source becomes nested `if`s; the
`sqr_len_a == 0` one-point case is an empty `TODO` block in the source and
falls through to `None`, as does the non-parallel branch. -/
def intersect_segments (a b : Segment) : SegmentIntersection :=
  let dir_a := a.«end» - a.start
  let dir_b := b.«end» - b.start
  if dir_a.dot (perp_vec2d dir_b) ≤ epsilon then
    let sqr_len_a := a.length_squared
    let sqr_len_b := b.length_squared
    if sqr_len_a = 0 ∧ sqr_len_b = 0 then
      if a.start = b.start then
        SegmentIntersection.Point a.start
      else
        SegmentIntersection.None
    else
      SegmentIntersection.None
  else
    SegmentIntersection.None

namespace R

/-- Real-coefficient copy of `Vec2`, for the `Segment → Ray` conversion whose
`normalize` divides by a norm. -/
structure Vec2 where
  x : ℝ
  y : ℝ

instance : Add Vec2 := ⟨fun a b => ⟨a.x + b.x, a.y + b.y⟩⟩

instance : Sub Vec2 := ⟨fun a b => ⟨a.x - b.x, a.y - b.y⟩⟩

instance : SMul ℝ Vec2 := ⟨fun c v => ⟨c * v.x, c * v.y⟩⟩

/-- Dot product, real coefficients. -/
def Vec2.dot (a b : Vec2) : ℝ :=
  a.x * b.x + a.y * b.y

/-- Squared norm, real coefficients. -/
def Vec2.normSq (v : Vec2) : ℝ :=
  v.dot v

/-- Norm, real coefficients. -/
noncomputable def Vec2.norm (v : Vec2) : ℝ :=
  Real.sqrt v.normSq

/-- `nalgebra`'s `Unit::new_normalize`: scale a vector by the inverse of its
norm. -/
noncomputable def Vec2.normalize (v : Vec2) : Vec2 :=
  (1 / v.norm) • v

/-- Real-coefficient copy of `Segment`. -/
structure Segment where
  start : Vec2
  «end» : Vec2

/-- `Segment::length`: `(start - end).norm()`. -/
noncomputable def Segment.length (s : Segment) : ℝ :=
  (s.start - s.«end»).norm

/-- Real-coefficient copy of `Ray`. -/
structure Ray where
  origin : Vec2
  direction : Vec2

/-- `Ray::as_segment`: segment from `origin` to
`origin + direction.scale(length)`. -/
def Ray.as_segment (r : Ray) (length : ℝ) : Segment :=
  ⟨r.origin, r.origin + length • r.direction⟩

/-- `From<Segment> for Ray`: `direction = normalize(end - start)`,
`origin = start`. -/
noncomputable def Ray.from_segment (s : Segment) : Ray :=
  ⟨s.start, (s.«end» - s.start).normalize⟩

end R

/-! ### Helper lemmas about the vector algebra -/

@[ext] theorem Vec2.ext' {a b : Vec2} (hx : a.x = b.x) (hy : a.y = b.y) :
    a = b := by
  cases a
  cases b
  simp_all

@[simp] theorem Vec2.add_x (a b : Vec2) : (a + b).x = a.x + b.x := rfl

@[simp] theorem Vec2.add_y (a b : Vec2) : (a + b).y = a.y + b.y := rfl

@[simp] theorem Vec2.sub_x (a b : Vec2) : (a - b).x = a.x - b.x := rfl

@[simp] theorem Vec2.sub_y (a b : Vec2) : (a - b).y = a.y - b.y := rfl

@[simp] theorem Vec2.smul_x (c : ℚ) (v : Vec2) : (c • v).x = c * v.x := rfl

@[simp] theorem Vec2.smul_y (c : ℚ) (v : Vec2) : (c • v).y = c * v.y := rfl

theorem Vec2.normSq_nonneg (v : Vec2) : 0 ≤ v.normSq := by
  have hx := mul_self_nonneg v.x
  have hy := mul_self_nonneg v.y
  simp only [Vec2.normSq, Vec2.dot]
  linarith

theorem Vec2.normSq_eq_zero {v : Vec2} (h : v.normSq = 0) :
    v = ⟨0, 0⟩ := by
  simp only [Vec2.normSq, Vec2.dot] at h
  have hx := mul_self_nonneg v.x
  have hy := mul_self_nonneg v.y
  have hx0 : v.x = 0 := by nlinarith
  have hy0 : v.y = 0 := by nlinarith
  ext <;> simp [hx0, hy0]

theorem Vec2.normSq_pos {v : Vec2} (h : v ≠ ⟨0, 0⟩) : 0 < v.normSq := by
  rcases lt_or_eq_of_le (Vec2.normSq_nonneg v) with hlt | heq
  · exact hlt
  · exact absurd (Vec2.normSq_eq_zero heq.symm) h

theorem Vec2.sub_eq_zero {a b : Vec2} (h : a - b = ⟨0, 0⟩) : a = b := by
  have hx := congrArg Vec2.x h
  have hy := congrArg Vec2.y h
  simp at hx hy
  ext
  · linarith
  · linarith

theorem Vec2.norm_nonneg (v : Vec2) : 0 ≤ v.norm :=
  Real.sqrt_nonneg _

theorem Vec2.norm_le_norm {a b : Vec2} (h : a.normSq ≤ b.normSq) :
    a.norm ≤ b.norm :=
  Real.sqrt_le_sqrt (by exact_mod_cast h)

theorem Vec2.sq_norm {v : Vec2} : v.norm ^ 2 = (v.normSq : ℝ) :=
  Real.sq_sqrt (by exact_mod_cast Vec2.normSq_nonneg v)

/-- Expansion of the squared norm of `w - u • d` as a quadratic in `u`. -/
theorem Vec2.normSq_sub_smul (w d : Vec2) (u : ℚ) :
    (w - u • d).normSq =
      w.normSq - 2 * u * (w.dot d) + u ^ 2 * d.normSq := by
  simp only [Vec2.normSq, Vec2.dot, Vec2.sub_x, Vec2.sub_y, Vec2.smul_x,
    Vec2.smul_y]
  ring

/-- `p - (a + u • d) = (p - a) - u • d`. -/
theorem Vec2.sub_add_smul (p a d : Vec2) (u : ℚ) :
    p - (a + u • d) = (p - a) - u • d := by
  ext <;> simp <;> ring

theorem Vec2.add_zero_smul (a d : Vec2) : a + (0 : ℚ) • d = a := by
  ext <;> simp

theorem Vec2.add_one_smul (s : Segment) :
    s.start + (1 : ℚ) • (s.«end» - s.start) = s.«end» := by
  ext <;> simp

/-- The clamped projection parameter minimizes the quadratic
`-2·t·c1 + t²·c2` over `t ∈ [0,1]`. -/
theorem quad_min_aux (c1 c2 t u : ℚ) (hc2 : 0 ≤ c2) (hu0 : 0 ≤ u)
    (hu1 : u ≤ 1)
    (ht : (c1 ≤ 0 ∧ t = 0) ∨ (0 < c1 ∧ c2 ≤ c1 ∧ t = 1) ∨
      (0 < c1 ∧ c1 < c2 ∧ t = c1 / c2)) :
    -(2 * t * c1) + t ^ 2 * c2 ≤ -(2 * u * c1) + u ^ 2 * c2 := by
  rcases ht with ⟨h1, rfl⟩ | ⟨h1, h2, rfl⟩ | ⟨h1, h2, rfl⟩
  · nlinarith [mul_nonneg hu0 (neg_nonneg.mpr h1),
      mul_nonneg (mul_nonneg hu0 hu0) hc2]
  · nlinarith [mul_nonneg (sub_nonneg.mpr hu1) (sub_nonneg.mpr h2),
      mul_nonneg (mul_nonneg (sub_nonneg.mpr hu1) (sub_nonneg.mpr hu1)) hc2]
  · have hc2p : 0 < c2 := lt_trans h1 h2
    have hne : c2 ≠ 0 := hc2p.ne'
    have key : -(2 * (c1 / c2) * c1) + (c1 / c2) ^ 2 * c2 = -(c1 ^ 2 / c2) := by
      field_simp
      ring
    have key2 : (u * c2 - c1) ^ 2 / c2 =
        -(2 * u * c1) + u ^ 2 * c2 + c1 ^ 2 / c2 := by
      field_simp
      ring
    have h3 : 0 ≤ (u * c2 - c1) ^ 2 / c2 :=
      div_nonneg (sq_nonneg _) hc2p.le
    linarith

/-- `Segment.closest_point` written as `start + t·(end - start)` together
with the branch that produced `t`. -/
theorem Segment.closest_point_param (s : Segment) (p : Vec2) :
    ∃ t : ℚ,
      (((p - s.start).dot (s.«end» - s.start) ≤ 0 ∧ t = 0) ∨
       (0 < (p - s.start).dot (s.«end» - s.start) ∧
        (s.«end» - s.start).normSq ≤ (p - s.start).dot (s.«end» - s.start) ∧
        t = 1) ∨
       (0 < (p - s.start).dot (s.«end» - s.start) ∧
        (p - s.start).dot (s.«end» - s.start) < (s.«end» - s.start).normSq ∧
        t = (p - s.start).dot (s.«end» - s.start) /
          (s.«end» - s.start).normSq)) ∧
      s.closest_point p = s.start + t • (s.«end» - s.start) := by
  by_cases h1 : (p - s.start).dot (s.«end» - s.start) ≤ 0
  · refine ⟨0, Or.inl ⟨h1, rfl⟩, ?_⟩
    simp only [Segment.closest_point]
    rw [if_pos h1, Vec2.add_zero_smul]
  · push_neg at h1
    by_cases h2 : (s.«end» - s.start).normSq ≤
        (p - s.start).dot (s.«end» - s.start)
    · refine ⟨1, Or.inr (Or.inl ⟨h1, h2, rfl⟩), ?_⟩
      simp only [Segment.closest_point]
      rw [if_neg (not_le.mpr h1), if_pos h2, Vec2.add_one_smul]
    · push_neg at h2
      refine ⟨_, Or.inr (Or.inr ⟨h1, h2, rfl⟩), ?_⟩
      simp only [Segment.closest_point]
      rw [if_neg (not_le.mpr h1), if_neg (not_le.mpr h2)]

/-! ### Helper lemmas for the real-coefficient layer -/

@[ext] theorem R.Vec2.ext_r {a b : R.Vec2} (hx : a.x = b.x)
    (hy : a.y = b.y) : a = b := by
  cases a
  cases b
  simp_all

@[simp] theorem R.Vec2.add_x_r (a b : R.Vec2) : (a + b).x = a.x + b.x := rfl

@[simp] theorem R.Vec2.add_y_r (a b : R.Vec2) : (a + b).y = a.y + b.y := rfl

@[simp] theorem R.Vec2.sub_x_r (a b : R.Vec2) : (a - b).x = a.x - b.x := rfl

@[simp] theorem R.Vec2.sub_y_r (a b : R.Vec2) : (a - b).y = a.y - b.y := rfl

@[simp] theorem R.Vec2.smul_x_r (c : ℝ) (v : R.Vec2) :
    (c • v).x = c * v.x := rfl

@[simp] theorem R.Vec2.smul_y_r (c : ℝ) (v : R.Vec2) :
    (c • v).y = c * v.y := rfl

theorem R.Vec2.normSq_pos_r {v : R.Vec2} (h : v ≠ ⟨0, 0⟩) : 0 < v.normSq := by
  have hx := mul_self_nonneg v.x
  have hy := mul_self_nonneg v.y
  rcases lt_or_eq_of_le (show (0 : ℝ) ≤ v.normSq by
    simp only [R.Vec2.normSq, R.Vec2.dot]
    linarith) with hlt | heq
  · exact hlt
  · exfalso
    apply h
    have heq' : v.x * v.x + v.y * v.y = 0 := by
      simp only [R.Vec2.normSq, R.Vec2.dot] at heq
      linarith
    have hx0 : v.x = 0 := by nlinarith
    have hy0 : v.y = 0 := by nlinarith
    ext <;> simp [hx0, hy0]

theorem R.Vec2.sub_ne_zero {a b : R.Vec2} (h : a ≠ b) :
    b - a ≠ (⟨0, 0⟩ : R.Vec2) := by
  intro heq
  apply h
  have hx := congrArg R.Vec2.x heq
  have hy := congrArg R.Vec2.y heq
  simp at hx hy
  ext
  · linarith
  · linarith

/-! ### Claim theorems -/

/-- C9: for every line `l` with unit-length normal `n` and offset `c` and
every point `p`, `l.distance_to_point p` equals the dot product `n·p` plus
`c`, and `l.distance_to_point_squared p` equals the square of
`l.distance_to_point p`. -/
theorem line_distance_to_point_spec (l : Line) (p : Vec2)
    (_h : l.normal.normSq = 1) :
    l.distance_to_point p = l.normal.dot p + l.c ∧
    l.distance_to_point_squared p = (l.distance_to_point p) ^ 2 := by
  refine ⟨rfl, ?_⟩
  simp only [Line.distance_to_point_squared]
  ring

/-- Witness for C9 at the line with normal `(0, 1)`, offset `0` and the
point `(3, 23/10)` (the source's doc-test example `(3.0, 2.3)`). -/
theorem line_distance_to_point_spec_witness :
    (Line.new ⟨0, 1⟩ 0).normal.normSq = 1 ∧
    ((Line.new ⟨0, 1⟩ 0).distance_to_point ⟨3, 23/10⟩ =
        (Line.new ⟨0, 1⟩ 0).normal.dot ⟨3, 23/10⟩ + (Line.new ⟨0, 1⟩ 0).c ∧
      (Line.new ⟨0, 1⟩ 0).distance_to_point_squared ⟨3, 23/10⟩ =
        ((Line.new ⟨0, 1⟩ 0).distance_to_point ⟨3, 23/10⟩) ^ 2) :=
  ⟨by with_unfolding_all decide, line_distance_to_point_spec (Line.new ⟨0, 1⟩ 0) ⟨3, 23/10⟩
    (by with_unfolding_all decide)⟩

/-- C3: `Segment.closest_point` follows exactly the clamped-projection
formula (`c1 ≤ 0 ↦ start`, then `c2 ≤ c1 ↦ end`, else
`start + (c1/c2)·(end-start)`), and the boundary ties resolve as
`c1 = 0 ↦ start` and `c1 = c2 ↦ end`. -/
theorem segment_closest_point_formula (s : Segment) (p : Vec2) :
    (s.closest_point p =
      if (p - s.start).dot (s.«end» - s.start) ≤ 0 then s.start
      else if (s.«end» - s.start).normSq ≤
          (p - s.start).dot (s.«end» - s.start) then s.«end»
      else s.start +
        ((p - s.start).dot (s.«end» - s.start) /
          (s.«end» - s.start).normSq) • (s.«end» - s.start)) ∧
    ((p - s.start).dot (s.«end» - s.start) = 0 →
      s.closest_point p = s.start) ∧
    ((p - s.start).dot (s.«end» - s.start) = (s.«end» - s.start).normSq →
      s.closest_point p = s.«end») := by
  refine ⟨rfl, ?_, ?_⟩
  · intro h0
    simp only [Segment.closest_point]
    rw [if_pos (le_of_eq h0)]
  · intro heq
    simp only [Segment.closest_point]
    by_cases hc1 : (p - s.start).dot (s.«end» - s.start) ≤ 0
    · rw [if_pos hc1]
      have hc2 : (s.«end» - s.start).normSq = 0 :=
        le_antisymm (heq ▸ hc1) (Vec2.normSq_nonneg _)
      have hz := Vec2.normSq_eq_zero hc2
      exact (Vec2.sub_eq_zero hz).symm
    · rw [if_neg hc1, if_pos (le_of_eq heq.symm)]

/-- Witness for C3 at the segment `(2,2)–(6,6)`: the doc-test query `(5,3)`
projects to `(4,4)`, and the tie `c1 = c2` at query `(6,6)` resolves to the
end point. -/
theorem segment_closest_point_formula_witness :
    (Segment.new ⟨2, 2⟩ ⟨6, 6⟩).closest_point ⟨5, 3⟩ = ⟨4, 4⟩ ∧
    (Segment.new ⟨2, 2⟩ ⟨6, 6⟩).closest_point ⟨6, 6⟩ = ⟨6, 6⟩ :=
  ⟨by with_unfolding_all decide,
   (segment_closest_point_formula (Segment.new ⟨2, 2⟩ ⟨6, 6⟩) ⟨6, 6⟩).2.2
     (by with_unfolding_all decide)⟩

/-- C10: `Segment.closest_point` is total with no division by zero: the
division `c1 / c2` is only reached when both branch guards fail, which
forces `0 < c2`; and on a zero-length segment the result is always
`start`. -/
theorem segment_closest_point_no_div_by_zero (s : Segment) (p : Vec2) :
    (¬ (p - s.start).dot (s.«end» - s.start) ≤ 0 →
     ¬ (s.«end» - s.start).normSq ≤ (p - s.start).dot (s.«end» - s.start) →
     0 < (s.«end» - s.start).normSq) ∧
    (s.start = s.«end» → s.closest_point p = s.start) := by
  constructor
  · intro h1 h2
    push_neg at h1 h2
    linarith
  · intro hse
    simp only [Segment.closest_point]
    have hd : s.«end» - s.start = (⟨0, 0⟩ : Vec2) := by
      rw [← hse]
      ext <;> simp
    rw [hd]
    have hdot : (p - s.start).dot ⟨0, 0⟩ = 0 := by
      simp [Vec2.dot]
    rw [if_pos (le_of_eq hdot)]

/-- Witness for C10: on the proper segment `(0,0)–(2,0)` with query point
`(1,1)` both guards fail and the denominator is positive, and on the
zero-length segment at `(5,5)` the result is `start` for the query
`(7,9)`. -/
theorem segment_closest_point_no_div_by_zero_witness :
    (0 < ((⟨2, 0⟩ : Vec2) - ⟨0, 0⟩).normSq) ∧
    (Segment.new ⟨5, 5⟩ ⟨5, 5⟩).closest_point ⟨7, 9⟩ = ⟨5, 5⟩ :=
  ⟨(segment_closest_point_no_div_by_zero (Segment.new ⟨0, 0⟩ ⟨2, 0⟩)
      ⟨1, 1⟩).1 (by with_unfolding_all decide) (by with_unfolding_all decide),
   (segment_closest_point_no_div_by_zero (Segment.new ⟨5, 5⟩ ⟨5, 5⟩)
      ⟨7, 9⟩).2 rfl⟩

/-- C5: on two zero-length segments, `intersect_segments` returns
`Point(a.start)` when `a.start = b.start` (exact coordinate equality) and
`None` otherwise; in particular two identical point-segments at `(1,0)`
yield `Point (1,0)` and two disjoint point-segments yield `None`. -/
theorem intersect_segments_two_points (a b : Segment)
    (ha : a.start = a.«end») (hb : b.start = b.«end») :
    intersect_segments a b =
      (if a.start = b.start then SegmentIntersection.Point a.start
       else SegmentIntersection.None) ∧
    intersect_segments (Segment.new ⟨1, 0⟩ ⟨1, 0⟩)
        (Segment.new ⟨1, 0⟩ ⟨1, 0⟩) =
      SegmentIntersection.Point ⟨1, 0⟩ ∧
    intersect_segments (Segment.new ⟨0, 0⟩ ⟨0, 0⟩)
        (Segment.new ⟨1, 0⟩ ⟨1, 0⟩) =
      SegmentIntersection.None := by
  refine ⟨?_, by with_unfolding_all decide, by with_unfolding_all decide⟩
  have hda : a.«end» - a.start = (⟨0, 0⟩ : Vec2) := by
    rw [← ha]
    ext <;> simp
  have hsa : a.length_squared = 0 := by
    simp [Segment.length_squared, ha, Vec2.normSq, Vec2.dot]
  have hsb : b.length_squared = 0 := by
    simp [Segment.length_squared, hb, Vec2.normSq, Vec2.dot]
  simp only [intersect_segments, hda]
  rw [if_pos]
  · rw [if_pos ⟨hsa, hsb⟩]
  · simp [Vec2.dot, epsilon]

/-- Witness for C5: the identical point-segments at `(1,0)` intersect in
`Point (1,0)`. -/
theorem intersect_segments_two_points_witness :
    intersect_segments (Segment.new ⟨1, 0⟩ ⟨1, 0⟩)
        (Segment.new ⟨1, 0⟩ ⟨1, 0⟩) =
      (if (Segment.new ⟨1, 0⟩ ⟨1, 0⟩).start =
          (Segment.new ⟨1, 0⟩ ⟨1, 0⟩).start
       then SegmentIntersection.Point (Segment.new ⟨1, 0⟩ ⟨1, 0⟩).start
       else SegmentIntersection.None) :=
  (intersect_segments_two_points (Segment.new ⟨1, 0⟩ ⟨1, 0⟩)
    (Segment.new ⟨1, 0⟩ ⟨1, 0⟩) rfl rfl).1

/-- C6: `intersect_segments` only ever returns `None` or `Point(a.start)`
(the `Overlap` variant is unreachable), and every input other than two
coincident zero-length segments returns `None`. -/
theorem intersect_segments_range (a b : Segment) :
    (intersect_segments a b = SegmentIntersection.None ∨
     intersect_segments a b = SegmentIntersection.Point a.start) ∧
    (¬ (a.length_squared = 0 ∧ b.length_squared = 0 ∧ a.start = b.start) →
      intersect_segments a b = SegmentIntersection.None) := by
  constructor
  · simp only [intersect_segments]
    split
    · split
      · split
        · right
          rfl
        · left
          rfl
      · left
        rfl
    · left
      rfl
  · intro h
    simp only [intersect_segments]
    split
    · split
      · split
        · rename_i hlen heq
          exact absurd ⟨hlen.1, hlen.2, heq⟩ h
        · rfl
      · rfl
    · rfl

/-- Witness for C6: two crossing proper segments (not both zero-length)
return `None` — which is also the unimplemented general-position branch in
action. -/
theorem intersect_segments_range_witness :
    intersect_segments (Segment.new ⟨0, 0⟩ ⟨1, 0⟩)
        (Segment.new ⟨0, 1⟩ ⟨2, 1⟩) =
      SegmentIntersection.None :=
  (intersect_segments_range (Segment.new ⟨0, 0⟩ ⟨1, 0⟩)
    (Segment.new ⟨0, 1⟩ ⟨2, 1⟩)).2 (by with_unfolding_all decide)

/-- C1 (failing input): the branch condition of `intersect_segments`
compares the *signed* scalar `dir_a · perp(dir_b)` against `f32::EPSILON`
without taking its magnitude, so the perpendicular segments
`(0,0)–(1,0)` and `(0,0)–(0,1)` — whose scalar is `-1`, with magnitude `1`
far above epsilon — are still classified as parallel and fall into the
degenerate-handling branch (returning `None` there). -/
theorem classifies_parallel_ignores_magnitude :
    classifies_parallel (Segment.new ⟨0, 0⟩ ⟨1, 0⟩)
      (Segment.new ⟨0, 0⟩ ⟨0, 1⟩) ∧
    ((Segment.new ⟨0, 0⟩ ⟨1, 0⟩).«end» -
        (Segment.new ⟨0, 0⟩ ⟨1, 0⟩).start).dot
      (perp_vec2d ((Segment.new ⟨0, 0⟩ ⟨0, 1⟩).«end» -
        (Segment.new ⟨0, 0⟩ ⟨0, 1⟩).start)) = -1 ∧
    ¬ (|((Segment.new ⟨0, 0⟩ ⟨1, 0⟩).«end» -
        (Segment.new ⟨0, 0⟩ ⟨1, 0⟩).start).dot
      (perp_vec2d ((Segment.new ⟨0, 0⟩ ⟨0, 1⟩).«end» -
        (Segment.new ⟨0, 0⟩ ⟨0, 1⟩).start))| ≤ epsilon) ∧
    intersect_segments (Segment.new ⟨0, 0⟩ ⟨1, 0⟩)
        (Segment.new ⟨0, 0⟩ ⟨0, 1⟩) =
      SegmentIntersection.None := by
  refine ⟨?_, by with_unfolding_all decide, by with_unfolding_all decide,
    by with_unfolding_all decide⟩
  show _ ≤ _
  with_unfolding_all decide

/-- C2: for a ray with unit-length direction, with
`t = (p - origin)·direction`: if `t ≤ 0` the signed distance is
`-‖p - origin‖`, and if `t > 0` it is `‖(p - origin) - t·direction‖`, the
unsigned perpendicular distance to the ray's infinite extension. -/
theorem ray_distance_to_point_spec (r : Ray) (p : Vec2)
    (_hu : r.direction.normSq = 1) :
    ((p - r.origin).dot r.direction ≤ 0 →
      r.distance_to_point p = -(p - r.origin).norm) ∧
    (0 < (p - r.origin).dot r.direction →
      r.distance_to_point p =
        ((p - r.origin) -
          ((p - r.origin).dot r.direction) • r.direction).norm) := by
  constructor
  · intro ht
    simp only [Ray.distance_to_point]
    rw [if_pos ht]
  · intro ht
    simp only [Ray.distance_to_point]
    rw [if_neg (not_le.mpr ht)]

/-- Witness for C2 at the source's doc-test example: ray at `(2,2)` with
direction `(0,1)`, point `(1,1)` behind the origin. -/
theorem ray_distance_to_point_spec_witness :
    (Ray.new ⟨2, 2⟩ ⟨0, 1⟩).distance_to_point ⟨1, 1⟩ =
      -((⟨1, 1⟩ : Vec2) - (⟨2, 2⟩ : Vec2)).norm :=
  (ray_distance_to_point_spec (Ray.new ⟨2, 2⟩ ⟨0, 1⟩) ⟨1, 1⟩
    (by with_unfolding_all decide)).1 (by with_unfolding_all decide)

/-- C7: `Ray.distance_to_point_squared` mirrors the branching of
`distance_to_point` with squared norms, negating the squared magnitude in
the behind branch; hence for points strictly behind or beside the origin
(`t ≤ 0`, `p ≠ origin`) it differs from the square of `distance_to_point`. -/
theorem ray_distance_to_point_squared_spec (r : Ray) (p : Vec2)
    (_hu : r.direction.normSq = 1) :
    ((p - r.origin).dot r.direction ≤ 0 →
      r.distance_to_point_squared p = -(p - r.origin).normSq) ∧
    (0 < (p - r.origin).dot r.direction →
      r.distance_to_point_squared p =
        ((p - r.origin) -
          ((p - r.origin).dot r.direction) • r.direction).normSq) ∧
    ((p - r.origin).dot r.direction ≤ 0 → p ≠ r.origin →
      (r.distance_to_point_squared p : ℝ) ≠
        (r.distance_to_point p) ^ 2) := by
  refine ⟨?_, ?_, ?_⟩
  · intro ht
    simp only [Ray.distance_to_point_squared]
    rw [if_pos ht]
  · intro ht
    simp only [Ray.distance_to_point_squared]
    rw [if_neg (not_le.mpr ht)]
  · intro ht hp
    simp only [Ray.distance_to_point_squared, Ray.distance_to_point]
    rw [if_pos ht, if_pos ht]
    have hw : p - r.origin ≠ (⟨0, 0⟩ : Vec2) := by
      intro h
      exact hp (Vec2.sub_eq_zero h)
    have hpos : 0 < (p - r.origin).normSq := Vec2.normSq_pos hw
    have hposR : (0 : ℝ) < ((p - r.origin).normSq : ℝ) := by
      exact_mod_cast hpos
    rw [neg_sq, Vec2.sq_norm]
    push_cast
    intro h
    linarith

/-- Witness for C7 at the ray at `(2,2)` with direction `(0,1)` and the
point `(1,1)`: the squared result is the negated squared magnitude and is
not the square of the signed distance. -/
theorem ray_distance_to_point_squared_spec_witness :
    (Ray.new ⟨2, 2⟩ ⟨0, 1⟩).distance_to_point_squared ⟨1, 1⟩ =
      -((⟨1, 1⟩ : Vec2) - (⟨2, 2⟩ : Vec2)).normSq ∧
    ((Ray.new ⟨2, 2⟩ ⟨0, 1⟩).distance_to_point_squared ⟨1, 1⟩ : ℝ) ≠
      ((Ray.new ⟨2, 2⟩ ⟨0, 1⟩).distance_to_point ⟨1, 1⟩) ^ 2 :=
  ⟨(ray_distance_to_point_squared_spec (Ray.new ⟨2, 2⟩ ⟨0, 1⟩) ⟨1, 1⟩
      (by with_unfolding_all decide)).1 (by with_unfolding_all decide),
   (ray_distance_to_point_squared_spec (Ray.new ⟨2, 2⟩ ⟨0, 1⟩) ⟨1, 1⟩
      (by with_unfolding_all decide)).2.2 (by with_unfolding_all decide)
      (by with_unfolding_all decide)⟩

/-- C4: `Segment.closest_point p` lies on the segment (it is
`start + t·(end - start)` for some `t ∈ [0,1]`) and is optimal: its distance
to `p` is at most the distance from `p` to any point of the segment. -/
theorem segment_closest_point_valid (s : Segment) (p : Vec2) :
    (∃ t : ℚ, 0 ≤ t ∧ t ≤ 1 ∧
      s.closest_point p = s.start + t • (s.«end» - s.start)) ∧
    (∀ u : ℚ, 0 ≤ u → u ≤ 1 →
      (p - s.closest_point p).norm ≤
        (p - (s.start + u • (s.«end» - s.start))).norm) := by
  obtain ⟨t, hcase, hcp⟩ := Segment.closest_point_param s p
  have hc2 : 0 ≤ (s.«end» - s.start).normSq := Vec2.normSq_nonneg _
  have ht0 : 0 ≤ t := by
    rcases hcase with ⟨h1, rfl⟩ | ⟨h1, h2, rfl⟩ | ⟨h1, h2, rfl⟩
    · exact le_refl 0
    · norm_num
    · exact div_nonneg h1.le hc2
  have ht1 : t ≤ 1 := by
    rcases hcase with ⟨h1, rfl⟩ | ⟨h1, h2, rfl⟩ | ⟨h1, h2, rfl⟩
    · norm_num
    · exact le_refl 1
    · exact div_le_one_of_le₀ h2.le hc2
  refine ⟨⟨t, ht0, ht1, hcp⟩, ?_⟩
  intro u hu0 hu1
  apply Vec2.norm_le_norm
  rw [hcp, Vec2.sub_add_smul, Vec2.sub_add_smul, Vec2.normSq_sub_smul,
    Vec2.normSq_sub_smul]
  have := quad_min_aux ((p - s.start).dot (s.«end» - s.start))
    ((s.«end» - s.start).normSq) t u hc2 hu0 hu1 hcase
  linarith

/-- Witness for C4 at the segment `(2,2)–(6,6)` and query point `(5,3)`,
comparing against the on-segment point at parameter `u = 1` (the end
point). -/
theorem segment_closest_point_valid_witness :
    (∃ t : ℚ, 0 ≤ t ∧ t ≤ 1 ∧
      (Segment.new ⟨2, 2⟩ ⟨6, 6⟩).closest_point ⟨5, 3⟩ =
        (Segment.new ⟨2, 2⟩ ⟨6, 6⟩).start +
          t • ((Segment.new ⟨2, 2⟩ ⟨6, 6⟩).«end» -
            (Segment.new ⟨2, 2⟩ ⟨6, 6⟩).start)) ∧
    ((⟨5, 3⟩ : Vec2) -
        (Segment.new ⟨2, 2⟩ ⟨6, 6⟩).closest_point ⟨5, 3⟩).norm ≤
      ((⟨5, 3⟩ : Vec2) -
        ((Segment.new ⟨2, 2⟩ ⟨6, 6⟩).start +
          (1 : ℚ) • ((Segment.new ⟨2, 2⟩ ⟨6, 6⟩).«end» -
            (Segment.new ⟨2, 2⟩ ⟨6, 6⟩).start))).norm :=
  ⟨(segment_closest_point_valid (Segment.new ⟨2, 2⟩ ⟨6, 6⟩) ⟨5, 3⟩).1,
   (segment_closest_point_valid (Segment.new ⟨2, 2⟩ ⟨6, 6⟩) ⟨5, 3⟩).2 1
     (by norm_num) (le_refl 1)⟩

/-- C8: converting a non-degenerate segment to a ray (`From<Segment> for
Ray`) and back with `as_segment(s.length())` reproduces the original
endpoints — exactly, in the real-valued model, hence in particular within
floating-point tolerance. -/
theorem segment_to_ray_roundtrip (s : R.Segment) (h : s.start ≠ s.«end») :
    ((R.Ray.from_segment s).as_segment s.length).start = s.start ∧
    ((R.Ray.from_segment s).as_segment s.length).«end» = s.«end» := by
  have hdne : s.«end» - s.start ≠ (⟨0, 0⟩ : R.Vec2) := R.Vec2.sub_ne_zero h
  have hpos : 0 < (s.«end» - s.start).normSq := R.Vec2.normSq_pos_r hdne
  have hnpos : 0 < (s.«end» - s.start).norm := Real.sqrt_pos.mpr hpos
  have hnne : (s.«end» - s.start).norm ≠ 0 := ne_of_gt hnpos
  have hlen : s.length = (s.«end» - s.start).norm := by
    simp only [R.Segment.length, R.Vec2.norm]
    congr 1
    simp only [R.Vec2.normSq, R.Vec2.dot, R.Vec2.sub_x_r, R.Vec2.sub_y_r]
    ring
  refine ⟨rfl, ?_⟩
  simp only [R.Ray.as_segment, R.Ray.from_segment, R.Vec2.normalize, hlen]
  ext
  · simp only [R.Vec2.add_x_r, R.Vec2.smul_x_r, R.Vec2.sub_x_r]
    field_simp
  · simp only [R.Vec2.add_y_r, R.Vec2.smul_y_r, R.Vec2.sub_y_r]
    field_simp

/-- Witness for C8 at the segment from `(0,0)` to `(3,4)`. -/
theorem segment_to_ray_roundtrip_witness :
    ((⟨⟨0, 0⟩, ⟨3, 4⟩⟩ : R.Segment).start ≠
      (⟨⟨0, 0⟩, ⟨3, 4⟩⟩ : R.Segment).«end») ∧
    (((R.Ray.from_segment ⟨⟨0, 0⟩, ⟨3, 4⟩⟩).as_segment
        (⟨⟨0, 0⟩, ⟨3, 4⟩⟩ : R.Segment).length).start =
      (⟨⟨0, 0⟩, ⟨3, 4⟩⟩ : R.Segment).start ∧
     ((R.Ray.from_segment ⟨⟨0, 0⟩, ⟨3, 4⟩⟩).as_segment
        (⟨⟨0, 0⟩, ⟨3, 4⟩⟩ : R.Segment).length).«end» =
      (⟨⟨0, 0⟩, ⟨3, 4⟩⟩ : R.Segment).«end») := by
  have hne : ((⟨⟨0, 0⟩, ⟨3, 4⟩⟩ : R.Segment).start ≠
      (⟨⟨0, 0⟩, ⟨3, 4⟩⟩ : R.Segment).«end») := by
    intro heq
    have hx := congrArg R.Vec2.x heq
    norm_num at hx
  exact ⟨hne, segment_to_ray_roundtrip ⟨⟨0, 0⟩, ⟨3, 4⟩⟩ hne⟩

end Compgeo
